import Mathlib

/-!
Shallow embedding of the octavia Minecraft-protocol server core
(src/packet/reader.rs, src/connection.rs, src/registry/{entry,manager}.rs,
src/tag/mod.rs, src/error.rs), together with proofs settling the frozen
claims about the specification.

Conventions of the embedding:
* Rust byte slices (`&[u8]`) are `List Nat`, each element the byte value.
* An `i32` is represented by its 32-bit two's-complement bit pattern, a
  `Nat` below `2^32`; nonnegative values coincide with their pattern.
* A `&mut &[u8]` reader is a state-passing function
  `List Nat → Except MinecraftError α × List Nat` (the second component is
  the suffix the caller's slice has been advanced to, also on error, since
  the Rust readers advance the caller's slice before they can fail).
* Rust loops that are not structurally terminating (the `write_varint`
  loop does not terminate for negative inputs) are embedded with explicit
  fuel; `none` means the loop has not finished within the given fuel.
-/

/-- Error type of the crate (src/error.rs `MinecraftError`).  Payloads of the
variants whose content never matters to any claim are dropped to `Unit`-like
constructors; the string-carrying variants keep their message, because
`connection.rs` pattern-matches on the `VarInt` variant. -/
inductive MinecraftError where
  | Io : MinecraftError
  | Utf8 : MinecraftError
  | VarInt : String → MinecraftError
  | BufferUnderrun : String → MinecraftError
  | Protocol : String → MinecraftError
  | Json : MinecraftError
deriving DecidableEq, Repr

/-- State-passing embedding of a Rust function taking `&mut &[u8]`:
it returns the result and the advanced slice. -/
abbrev PR (α : Type) : Type := List Nat → (Except MinecraftError α) × List Nat

/-- Sequencing of two readers, the embedding of Rust's `?` operator:
on error the advanced slice is kept (the Rust readers have already moved
the caller's slice when they fail). -/
def pbind {α β : Type} (m : PR α) (f : α → PR β) : PR β := fun buf =>
  match m buf with
  | (.ok a, buf') => f a buf'
  | (.error e, buf') => (.error e, buf')

/-- Reader returning a pure value, consuming nothing. -/
def ppure {α : Type} (a : α) : PR α := fun buf => (.ok a, buf)

/-- Reader failing with a given error, consuming nothing. -/
def pthrow {α : Type} (e : MinecraftError) : PR α := fun buf => (.error e, buf)

/-- Mask of the seven data bits of a VarInt byte (`SEGMENT_BITS`, packet/reader.rs). -/
def SEGMENT_BITS : Nat := 0x7F

/-- Continuation bit of a VarInt byte (`CONTINUE_BIT`, packet/reader.rs). -/
def CONTINUE_BIT : Nat := 0x80

/-- Modulus of 32-bit patterns. -/
def U32 : Nat := 4294967296

/-- Loop body of `PacketReader::read_varint` (packet/reader.rs lines 15-38).
`result` and `shift` are the accumulator and shift of the Rust loop; one byte
is taken per iteration.  `result |= ((byte & SEGMENT_BITS) as i32) << shift`
is the pattern computation `result ||| ((b &&& SEGMENT_BITS) <<< shift) % 2^32`
(Rust `<<` on `i32` discards the overflowing bits).  An exhausted buffer
yields `VarInt "buffer underflow"`; a shift reaching 32 yields
`VarInt "varint too long"`. -/
def read_varint_go : List Nat → Nat → Nat → (Except MinecraftError Nat) × List Nat
  | [], _result, _shift => (.error (.VarInt "buffer underflow"), [])
  | b :: rest, result, shift =>
    let result' := result ||| (((b &&& SEGMENT_BITS) <<< shift) % U32)
    if b &&& CONTINUE_BIT == 0 then (.ok result', rest)
    else if shift + 7 ≥ 32 then (.error (.VarInt "varint too long"), rest)
    else read_varint_go rest result' (shift + 7)

/-- `PacketReader::read_varint`: decode one VarInt from the front of the
buffer, returning its `i32` bit pattern and advancing past the bytes read. -/
def read_varint : PR Nat := fun buf => read_varint_go buf 0 0

/-- Arithmetic shift right by 7 of an `i32` bit pattern (`value >>= 7` in
`PacketReader::write_varint`; Rust `>>` on a signed integer replicates the
sign bit). -/
def asr7 (p : Nat) : Nat :=
  if p < 2 ^ 31 then p / 128 else p / 128 + (U32 - 2 ^ 25)

/-- Loop of `PacketReader::write_varint` (packet/reader.rs lines 157-173) with
explicit fuel: each iteration emits `value as u8 & SEGMENT_BITS`, arithmetic-
shifts the value right by 7, sets the continuation bit when the shifted value
is nonzero and stops when it is zero.  `none` means the loop has not finished
within `fuel` iterations (for negative inputs it never finishes: the shifted
value stays `-1`). -/
def write_varint_fuel : Nat → Nat → Option (List Nat)
  | 0, _ => none
  | fuel + 1, p =>
    let b := (p % 256) &&& SEGMENT_BITS
    let p' := asr7 p
    if p' == 0 then some [b]
    else
      match write_varint_fuel fuel p' with
      | some rest => some ((b ||| CONTINUE_BIT) :: rest)
      | none => none

/-- Byte sequence produced by `PacketReader::write_varint` whenever its loop
terminates within five iterations, which it does for every nonnegative `i32`
(fewer than five base-128 digits fit in 31 bits); totalized with `[]` so the
encoders below stay plain functions.  `write_varint_fuel_five` proves the
totalization is never exercised for patterns below `2^31`. -/
def write_varint (p : Nat) : List Nat :=
  (write_varint_fuel 5 p).getD []

/-- Loop of `PacketReader::get_varint_size` (packet/reader.rs lines 142-156)
carrying explicit fuel: each iteration increments `size` and logically shifts
`val` (the `u32` reinterpretation of the argument) right by 7, stopping when
`val` reaches zero.  Six units of fuel are enough for every 32-bit pattern,
so the fuel never runs out on the function's actual domain. -/
def get_varint_size_go : Nat → Nat → Nat → Nat
  | 0, _, size => size
  | fuel + 1, val, size =>
    let size' := size + 1
    let val' := val >>> 7
    if val' == 0 then size' else get_varint_size_go fuel val' size'

/-- `PacketReader::get_varint_size`: byte length `write_varint` is intended
to produce, computed on the `u32` reinterpretation of the pattern. -/
def get_varint_size (p : Nat) : Nat := get_varint_size_go 6 p 0

/-- Modelled from the spec (and the behavior of the external
`std::str::from_utf8`): validity of a byte sequence as UTF-8, the check
`PacketReader::read_string` performs on the length-delimited payload.
Follows the standard UTF-8 table: ASCII; two-byte C2-DF; three-byte with
the E0/ED surrogate and overlong exclusions; four-byte with the F0/F4
range exclusions; each continuation byte in 80-BF. -/
def utf8Valid : List Nat → Bool
  | [] => true
  | b :: rest =>
    if b < 0x80 then utf8Valid rest
    else if 0xC2 ≤ b ∧ b ≤ 0xDF then
      match rest with
      | c :: r => (0x80 ≤ c ∧ c < 0xC0) && utf8Valid r
      | [] => false
    else if b == 0xE0 then
      match rest with
      | c :: d :: r => (0xA0 ≤ c ∧ c < 0xC0) && (0x80 ≤ d ∧ d < 0xC0) && utf8Valid r
      | _ => false
    else if (0xE1 ≤ b ∧ b ≤ 0xEC) ∨ (0xEE ≤ b ∧ b ≤ 0xEF) then
      match rest with
      | c :: d :: r => (0x80 ≤ c ∧ c < 0xC0) && (0x80 ≤ d ∧ d < 0xC0) && utf8Valid r
      | _ => false
    else if b == 0xED then
      match rest with
      | c :: d :: r => (0x80 ≤ c ∧ c < 0xA0) && (0x80 ≤ d ∧ d < 0xC0) && utf8Valid r
      | _ => false
    else if b == 0xF0 then
      match rest with
      | c :: d :: e :: r =>
        (0x90 ≤ c ∧ c < 0xC0) && (0x80 ≤ d ∧ d < 0xC0) && (0x80 ≤ e ∧ e < 0xC0)
          && utf8Valid r
      | _ => false
    else if 0xF1 ≤ b ∧ b ≤ 0xF3 then
      match rest with
      | c :: d :: e :: r =>
        (0x80 ≤ c ∧ c < 0xC0) && (0x80 ≤ d ∧ d < 0xC0) && (0x80 ≤ e ∧ e < 0xC0)
          && utf8Valid r
      | _ => false
    else if b == 0xF4 then
      match rest with
      | c :: d :: e :: r =>
        (0x80 ≤ c ∧ c < 0x90) && (0x80 ≤ d ∧ d < 0xC0) && (0x80 ≤ e ∧ e < 0xC0)
          && utf8Valid r
      | _ => false
    else false

/-- `PacketReader::read_string` (packet/reader.rs lines 40-59): read a VarInt
length, reject a negative length (pattern at or above `2^31`), reject a length
exceeding the remaining bytes, decode the payload as UTF-8 and advance past
it.  A Rust `String` is represented by its UTF-8 byte list.  Note the length
prefix has already been consumed from the caller's slice when any of the
checks fails. -/
def read_string : PR (List Nat) :=
  pbind read_varint fun length => fun buf =>
    if 2 ^ 31 ≤ length then
      (.error (.Protocol "String length cannot be negative"), buf)
    else if buf.length < length then
      (.error (.BufferUnderrun "String length exceeds buffer size"), buf)
    else if utf8Valid (buf.take length) then
      (.ok (buf.take length), buf.drop length)
    else
      (.error .Utf8, buf)

/-- `PacketReader::read_byte`: one byte, returned as its pattern. -/
def read_byte : PR Nat := fun buf =>
  match buf with
  | [] => (.error (.BufferUnderrun "Not enough bytes for byte"), [])
  | b :: rest => (.ok b, rest)

/-- `PacketReader::read_unsigned_byte`. -/
def read_unsigned_byte : PR Nat := fun buf =>
  match buf with
  | [] => (.error (.BufferUnderrun "Not enough bytes for unsigned byte"), [])
  | b :: rest => (.ok b, rest)

/-- `PacketReader::read_boolean`: one byte, nonzero meaning true. -/
def read_boolean : PR Bool := fun buf =>
  match buf with
  | [] => (.error (.BufferUnderrun "Not enough bytes for boolean"), [])
  | b :: rest => (.ok (b != 0), rest)

/-- `PacketReader::read_unsigned_short`: two bytes, big endian. -/
def read_unsigned_short : PR Nat := fun buf =>
  match buf with
  | b0 :: b1 :: rest => (.ok ((b0 <<< 8) ||| b1), rest)
  | _ => (.error (.BufferUnderrun "Not enough bytes for unsigned short"), buf)

/-- `PacketReader::read_long`: eight bytes, big endian, returned as the
64-bit pattern `result |= (buf[i] as i64) << ((7 - i) * 8)` accumulates. -/
def read_long : PR Nat := fun buf =>
  if buf.length < 8 then (.error (.BufferUnderrun "Not enough bytes for long"), buf)
  else
    (.ok ((List.range 8).foldl (fun result i => result ||| (buf.getD i 0 <<< ((7 - i) * 8))) 0),
      buf.drop 8)

/-- `PacketReader::read_plugin_message`: a string channel id, then the whole
remaining payload as opaque bytes; the slice is cleared. -/
def read_plugin_message : PR (List Nat × List Nat) :=
  pbind read_string fun channel_id => fun buf => (.ok (channel_id, buf), [])

/-- Rust `str::split(':')` on the byte list of a string: splits at every
colon byte (the colon is ASCII, so on valid UTF-8 the byte-level split
coincides with the character-level one).  Mirrors Rust in yielding one part
more than the number of separators, with empty parts kept. -/
def splitColon : List Nat → List (List Nat)
  | [] => [[]]
  | b :: rest =>
    if b == 58 then [] :: splitColon rest
    else
      match splitColon rest with
      | part :: parts => (b :: part) :: parts
      | [] => [[b]]

/-- `PacketReader::read_identifier` (packet/reader.rs lines 133-140): read a
string, split it at every colon and demand exactly two parts, returning
(namespace, path). -/
def read_identifier : PR (List Nat × List Nat) :=
  pbind read_string fun full_id => fun buf =>
    let parts := splitColon full_id
    if parts.length != 2 then (.error (.Protocol "Invalid identifier format"), buf)
    else (.ok (parts.getD 0 [], parts.getD 1 []), buf)

/-- Byte list of an ASCII string literal (for ASCII the UTF-8 bytes are the
code points). -/
def ascii (s : String) : List Nat := s.data.map Char.toNat

/-- `PacketReader::write_string`: VarInt length prefix (the byte length, a
nonnegative `i32` for every string this server writes), then the bytes. -/
def write_string (value : List Nat) : List Nat :=
  write_varint value.length ++ value

/-- `PacketReader::write_identifier`: format `namespace:path` and write it
as a prefixed string. -/
def write_identifier (namespace_ path : List Nat) : List Nat :=
  write_string (namespace_ ++ [58] ++ path)

/-- Big-endian bytes of an `i64` pattern (`BytesMut::put_i64`). -/
def i64be (p : Nat) : List Nat :=
  [p / 2 ^ 56 % 256, p / 2 ^ 48 % 256, p / 2 ^ 40 % 256, p / 2 ^ 32 % 256,
   p / 2 ^ 24 % 256, p / 2 ^ 16 % 256, p / 2 ^ 8 % 256, p % 256]

/-- `RegistryEntry::new` (registry/entry.rs lines 13-25): split the name once
at the first colon into (namespace, name); default the namespace to
"minecraft" when there is no colon. -/
def splitOnceColon : List Nat → Option (List Nat × List Nat)
  | [] => none
  | b :: rest =>
    if b == 58 then some ([], rest)
    else
      match splitOnceColon rest with
      | some (l, r) => some (b :: l, r)
      | none => none

/-- `RegistryEntry::new` followed by `RegistryEntry::write_to`: the
(namespace, name) pair an entry string is written as. -/
def registry_entry_new (s : List Nat) : List Nat × List Nat :=
  match splitOnceColon s with
  | some (namespace_, name) => (namespace_, name)
  | none => (ascii "minecraft", s)

/-- `write_registry_packet` (registry/entry.rs lines 45-66): packet ID 0x07,
the registry name as a "minecraft" identifier, the entry count, then each
entry's identifier followed by a has-data byte fixed to 0; finally the whole
content is length-prefixed. -/
def write_registry_packet (registry_name : List Nat) (entries : List (List Nat)) :
    List Nat :=
  let packet :=
    write_varint 0x07
      ++ write_identifier (ascii "minecraft") registry_name
      ++ write_varint entries.length
      ++ (entries.map fun entry =>
            let re := registry_entry_new entry
            write_identifier re.1 re.2 ++ [0]).flatten
  write_varint packet.length ++ packet

/-- The static registry catalog (registry/mod.rs `RegistryData`): the encoder
only consumes each registry's keys, so the model keeps the key lists (in the
map's iteration order).  The catalog itself is deserialized at run time from
`default_registry.json`, which is outside src/, so its concrete content is a
parameter of the model. -/
structure RegistryData where
  banner_patterns : List (List Nat)
  chat_types : List (List Nat)
  damage_types : List (List Nat)
  dimension_types : List (List Nat)
  trim_materials : List (List Nat)
  trim_patterns : List (List Nat)
  wolf_variants : List (List Nat)
  biomes : List (List Nat)
  painting_variants : List (List Nat)
  enchantments : List (List Nat)
  jukebox_songs : List (List Nat)

/-- `RegistryManager::write_registry_data` (registry/manager.rs lines 24-85):
one registry packet per registry type, in the source's call order. -/
def write_registry_data (rd : RegistryData) : List (List Nat) :=
  [write_registry_packet (ascii "worldgen/biome") rd.biomes,
   write_registry_packet (ascii "chat_type") rd.chat_types,
   write_registry_packet (ascii "trim_pattern") rd.trim_patterns,
   write_registry_packet (ascii "trim_material") rd.trim_materials,
   write_registry_packet (ascii "wolf_variant") rd.wolf_variants,
   write_registry_packet (ascii "painting_variant") rd.painting_variants,
   write_registry_packet (ascii "dimension_type") rd.dimension_types,
   write_registry_packet (ascii "damage_type") rd.damage_types,
   write_registry_packet (ascii "banner_pattern") rd.banner_patterns,
   write_registry_packet (ascii "enchantment") rd.enchantments,
   write_registry_packet (ascii "jukebox_song") rd.jukebox_songs]

/-- A tag name (tag/mod.rs `TagName`). -/
structure TagName where
  name : List Nat
  namespace_ : List Nat

/-- A tag group (tag/mod.rs `TagGroup`): entry IDs are `i32` patterns. -/
structure TagGroup where
  entries : List Nat
  tag_name : TagName

/-- The static tag catalog (tag/mod.rs `TagData`), its thirteen registries in
struct order; deserialized at run time from `default_tags.json`, which is
outside src/, so its content is a parameter of the model. -/
structure TagData where
  banner_patterns : List TagGroup
  blocks : List TagGroup
  cat_variants : List TagGroup
  damage_types : List TagGroup
  enchantments : List TagGroup
  entity_types : List TagGroup
  fluids : List TagGroup
  game_events : List TagGroup
  instruments : List TagGroup
  items : List TagGroup
  painting_variants : List TagGroup
  point_of_interest_types : List TagGroup
  worldgen_biomes : List TagGroup

/-- `RegistryManager::write_tag_groups` (registry/manager.rs lines 166-185):
nothing for an empty group list; otherwise the registry identifier, the group
count, and per group its identifier, entry count and entry IDs. -/
def write_tag_groups (registry_name : List Nat) (tags : List TagGroup) : List Nat :=
  if tags.isEmpty then []
  else
    write_identifier (ascii "minecraft") registry_name
      ++ write_varint tags.length
      ++ (tags.map fun tag =>
            write_identifier tag.tag_name.namespace_ tag.tag_name.name
              ++ write_varint tag.entries.length
              ++ (tag.entries.map fun entry_id => write_varint entry_id).flatten).flatten

/-- `RegistryManager::write_update_tags` (registry/manager.rs lines 103-164):
packet ID 0x0D, the count of registries with a nonempty tag list, the groups
of each of the thirteen registries in source order, all length-prefixed.
(The function is defined in the source but never called.) -/
def write_update_tags_frame (td : TagData) : List Nat :=
  let registry_count :=
    [td.banner_patterns, td.blocks, td.cat_variants, td.damage_types,
     td.enchantments, td.entity_types, td.fluids, td.game_events,
     td.instruments, td.items, td.painting_variants,
     td.point_of_interest_types, td.worldgen_biomes].foldl
      (fun n l => n + if l.isEmpty then 0 else 1) 0
  let packet :=
    write_varint 0x0D
      ++ write_varint registry_count
      ++ write_tag_groups (ascii "banner_pattern") td.banner_patterns
      ++ write_tag_groups (ascii "block") td.blocks
      ++ write_tag_groups (ascii "cat_variant") td.cat_variants
      ++ write_tag_groups (ascii "damage_type") td.damage_types
      ++ write_tag_groups (ascii "enchantment") td.enchantments
      ++ write_tag_groups (ascii "entity_type") td.entity_types
      ++ write_tag_groups (ascii "fluid") td.fluids
      ++ write_tag_groups (ascii "game_event") td.game_events
      ++ write_tag_groups (ascii "instrument") td.instruments
      ++ write_tag_groups (ascii "item") td.items
      ++ write_tag_groups (ascii "painting_variant") td.painting_variants
      ++ write_tag_groups (ascii "point_of_interest_type") td.point_of_interest_types
      ++ write_tag_groups (ascii "worldgen/biome") td.worldgen_biomes
  write_varint packet.length ++ packet

/-- Connection phase (connection.rs `ConnectionState`). -/
inductive ConnectionState where
  | Handshake
  | Status
  | Login
  | Configuration
  | Play
deriving DecidableEq, Repr

/-- Rust `i32 as usize` on a 64-bit target: sign extension of the pattern. -/
def i32ToUsize (p : Nat) : Nat :=
  if p < 2 ^ 31 then p else p + (2 ^ 64 - U32)

/-- Rust `usize as i32`: truncation to the low 32 bits of the pattern. -/
def usizeToI32 (u : Nat) : Nat := u % U32

/-- Signed value of an `i32` bit pattern. -/
def i32ToInt (p : Nat) : Int :=
  if p < 2 ^ 31 then (p : Int) else (p : Int) - (U32 : Int)

/-- Modelled from the spec: the status-response JSON document produced by the
external `serde_json` serializer (version name/protocol, player counts and
sample, description text).  Its exact bytes are not determined by src/, and no
claim depends on them; only its role as the status-response payload matters. -/
def status_response_str : List Nat :=
  ascii "\x7b\"description\":\x7b\"text\":\"Hello world!\"\x7d,\"players\":\x7b\"max\":100,\"online\":4,\"sample\":[\x7b\"id\":\"00000000-0000-0000-0000-000000000001\",\"name\":\"Player\"\x7d]\x7d,\"version\":\x7b\"name\":\"1.21.1\",\"protocol\":767\x7d\x7d"

/-- `Connection::send_status_response` (connection.rs lines 249-285): frame
whose declared length is the string length plus the sizes of the string's own
length prefix and of the packet ID, then packet ID 0x00, then the string. -/
def status_response_frame : List Nat :=
  let string_length := status_response_str.length
  let total_length := string_length + (get_varint_size string_length + get_varint_size 0)
  write_varint total_length ++ write_varint 0 ++ write_string status_response_str

/-- `Connection::send_pong_response` (connection.rs lines 289-302): declared
length 9, packet ID 0x01, the echoed 8-byte payload. -/
def pong_frame (payload : Nat) : List Nat :=
  write_varint 9 ++ write_varint 1 ++ i64be payload

/-- Bytes of the fixed placeholder UUID
`00000000-0000-0000-0000-000000000001` (via the external `uuid` crate). -/
def uuid_bytes : List Nat := List.replicate 15 0 ++ [1]

/-- `Connection::send_login_success` (connection.rs lines 309-331): content is
packet ID 0x02, the UUID bytes, the username string, a zero property count and
a zero byte; the frame is the length-prefixed content. -/
def login_success_frame (username : List Nat) : List Nat :=
  let content := write_varint 0x02 ++ uuid_bytes ++ write_string username
    ++ write_varint 0 ++ [0]
  write_varint content.length ++ content

/-- `Connection::send_known_packs` (connection.rs lines 353-372): content is
packet ID 0x0E, pack count 1 and the (minecraft, core, 1.21.1) triple; the
frame is the length-prefixed content. -/
def known_packs_frame : List Nat :=
  let content := write_varint 0x0E ++ write_varint 1
    ++ write_string (ascii "minecraft") ++ write_string (ascii "core")
    ++ write_string (ascii "1.21.1")
  write_varint content.length ++ content

/-- `Connection::send_finish_configuration` (connection.rs lines 386-397):
content is packet ID 0x03 alone; the frame is the length-prefixed content. -/
def finish_configuration_frame : List Nat :=
  let packet := write_varint 0x03
  write_varint packet.length ++ packet

/-- The known-packs parsing section of the `KNOWN_PACKS_PACKET_ID` arm
(connection.rs lines 214-226): read that many (namespace, id, version)
string triples. -/
def read_known_packs : Nat → PR (List (List Nat × List Nat × List Nat))
  | 0 => ppure []
  | n + 1 =>
    pbind read_string fun namespace_ =>
    pbind read_string fun pack_id =>
    pbind read_string fun version =>
    pbind (read_known_packs n) fun packs =>
    ppure ((namespace_, pack_id, version) :: packs)

/-- The parse phase of the `KNOWN_PACKS_PACKET_ID` arm (connection.rs lines
211-226): a VarInt count, then that many string triples; `for _ in
0..pack_count` over an `i32` iterates zero times for a negative count. -/
def parse_known_packs : PR (Nat × List (List Nat × List Nat × List Nat)) :=
  pbind read_varint fun pack_count =>
  pbind (read_known_packs (if pack_count < 2 ^ 31 then pack_count else 0)) fun packs =>
  ppure (pack_count, packs)

/-- The `ConnectionState::Handshake` arm of `Connection::handle_packet`
(connection.rs lines 118-144): on packet ID 0x00 parse protocol version,
server address, server port and next state, and transition on next state 1
or 2, failing on anything else; other packet IDs fall through untouched. -/
def handshake_arm (packet_id : Nat) : PR ConnectionState :=
  if packet_id == 0x00 then
    pbind read_varint fun _protocol_version =>
    pbind read_string fun _server_address =>
    pbind read_unsigned_short fun _server_port =>
    pbind read_varint fun next_state =>
    match next_state with
    | 1 => ppure ConnectionState.Status
    | 2 => ppure ConnectionState.Login
    | _ => pthrow (.Protocol ("Unexpected next state: " ++ toString (i32ToInt next_state)))
  else ppure ConnectionState.Handshake

/-- The body of the `match self.state` dispatch of `Connection::handle_packet`
(connection.rs lines 117-239): given the phase, the decoded packet ID and the
frame payload, produce the next phase, the outbound frames written to the
socket, and whether the connection loop should continue (`false` only for the
Status-phase ping).  The static registry catalog the known-packs arm encodes
is the parameter `rd` (`RegistryManager::new` loads it from a JSON document
outside src/). -/
def dispatch (st : ConnectionState) (rd : RegistryData) (packet_id : Nat) :
    PR (ConnectionState × List (List Nat) × Bool) :=
  match st with
  | .Handshake =>
    pbind (handshake_arm packet_id) fun st' => ppure (st', [], true)
  | .Status =>
    match packet_id with
    | 0 => ppure (ConnectionState.Status, [status_response_frame], true)
    | 1 =>
      pbind read_long fun payload =>
      ppure (ConnectionState.Status, [pong_frame payload], false)
    | _ => ppure (ConnectionState.Status, [], true)
  | .Login =>
    match packet_id with
    | 0 =>
      pbind read_string fun username =>
      ppure (ConnectionState.Login, [login_success_frame username], true)
    | 3 => ppure (ConnectionState.Configuration, [known_packs_frame], true)
    | _ => ppure (ConnectionState.Login, [], true)
  | .Configuration =>
    match packet_id with
    | 0 =>
      pbind read_string fun _locale =>
      pbind read_byte fun _view_distance =>
      pbind read_varint fun _chat_mode =>
      pbind read_boolean fun _chat_colors =>
      pbind read_unsigned_byte fun _displayed_skin_parts =>
      pbind read_varint fun _main_hand =>
      pbind read_boolean fun _enable_text_filtering =>
      pbind read_boolean fun _allow_server_listings =>
      ppure (ConnectionState.Configuration, [], true)
    | 2 =>
      pbind read_plugin_message fun _channel_data =>
      ppure (ConnectionState.Configuration, [], true)
    | 3 => ppure (ConnectionState.Play, [], true)
    | 7 =>
      pbind parse_known_packs fun _packs =>
      ppure (ConnectionState.Configuration,
        write_registry_data rd ++ [finish_configuration_frame], true)
    | _ => ppure (ConnectionState.Configuration, [], true)
  | .Play => ppure (ConnectionState.Play, [], true)

/-- `Connection::handle_packet` (connection.rs lines 91-244): decode a VarInt
frame length from the buffer front (any `VarInt` error is answered with
`Ok(true)`, "not enough data yet", leaving the buffer untouched); recompute
the prefix size with `get_varint_size`; wait if the buffer is shorter than
prefix size plus length; otherwise slice out the frame, decode the packet ID
(errors propagate), dispatch, and drop the consumed bytes — except that the
ping arm returns before the advance.  The result pairs `Result<bool>` with
the buffer the connection keeps. -/
def handle_packet (st : ConnectionState) (rd : RegistryData) (buffer : List Nat) :
    (Except MinecraftError (ConnectionState × List (List Nat) × Bool)) × List Nat :=
  match read_varint buffer with
  | (.error (.VarInt _), _) => (.ok (st, [], true), buffer)
  | (.error e, _) => (.error e, buffer)
  | (.ok len, _) =>
    let packet_length := i32ToUsize len
    let length_size := get_varint_size (usizeToI32 packet_length)
    let total_size := length_size + packet_length
    if buffer.length < total_size then (.ok (st, [], true), buffer)
    else
      let packet_data := (buffer.take total_size).drop length_size
      match read_varint packet_data with
      | (.error e, _) => (.error e, buffer)
      | (.ok packet_id, rest) =>
        match dispatch st rd packet_id rest with
        | (.error e, _) => (.error e, buffer)
        | (.ok (st', sent, shouldContinue), _) =>
          if shouldContinue then (.ok (st', sent, true), buffer.drop total_size)
          else (.ok (st', sent, false), buffer)

/-- The per-read frame-processing loop of `Connection::handle_connection`
(connection.rs lines 68-79): `while !buffer.is_empty()` call `handle_packet`;
continue on `Ok(true)`, return on `Ok(false)` or an error.  Fuel counts loop
iterations; `none` means the loop has not finished within the fuel, and a
result of `none` for every fuel means it never finishes. -/
def packet_loop : Nat → ConnectionState → RegistryData → List Nat →
    Option ((Except MinecraftError (ConnectionState × Bool)) × List Nat)
  | 0, _, _, _ => none
  | fuel + 1, st, rd, buffer =>
    if buffer.isEmpty then some (.ok (st, true), buffer)
    else
      match handle_packet st rd buffer with
      | (.ok (st', _sent, true), buffer') => packet_loop fuel st' rd buffer'
      | (.ok (st', _sent, false), buffer') => some (.ok (st', false), buffer')
      | (.error e, buffer') => some (.error e, buffer')

/-- Packet ID of an outbound frame: the VarInt after the frame's VarInt
length prefix (the observation used to compare emitted frames). -/
def frameIdOf (frame : List Nat) : Option Nat :=
  match read_varint frame with
  | (.ok _, rest) =>
    match read_varint rest with
    | (.ok packet_id, _) => some packet_id
    | _ => none
  | _ => none

/-- A small concrete registry catalog used to evaluate the model on closed
inputs (one dimension type, one biome, the rest empty). -/
def rd0 : RegistryData where
  banner_patterns := []
  chat_types := []
  damage_types := []
  dimension_types := [ascii "overworld"]
  trim_materials := []
  trim_patterns := []
  wolf_variants := []
  biomes := [ascii "plains"]
  painting_variants := []
  enchantments := []
  jukebox_songs := []

/-- A small concrete tag catalog: one block tag group, everything else
empty. -/
def td0 : TagData where
  banner_patterns := []
  blocks := [{ entries := [0], tag_name := { name := ascii "stone", namespace_ := ascii "minecraft" } }]
  cat_variants := []
  damage_types := []
  enchantments := []
  entity_types := []
  fluids := []
  game_events := []
  instruments := []
  items := []
  painting_variants := []
  point_of_interest_types := []
  worldgen_biomes := []

/-- `x & SEGMENT_BITS` after a `u8` truncation keeps the low seven bits. -/
theorem byte_low (p : Nat) : (p % 256) &&& SEGMENT_BITS = p % 128 := by
  have h7 : SEGMENT_BITS = 2 ^ 7 - 1 := rfl
  rw [h7, Nat.and_pow_two_sub_one_eq_mod]
  exact Nat.mod_mod_of_dvd p (by norm_num)

/-- A value below 128 has no continuation bit. -/
theorem no_cont_of_lt (c : Nat) (h : c < 128) : c &&& CONTINUE_BIT = 0 := by
  have h8 : CONTINUE_BIT = 2 ^ 7 := rfl
  rw [h8, Nat.and_two_pow, Nat.testBit_lt_two_pow h]
  rfl

/-- A byte in `[128, 256)` has its continuation bit set. -/
theorem cont_of_ge (b : Nat) (h1 : 128 ≤ b) (h2 : b < 256) :
    b &&& CONTINUE_BIT = 128 := by
  have h8 : CONTINUE_BIT = 2 ^ 7 := rfl
  have ht : b.testBit 7 = true := by
    rw [Nat.testBit_to_div_mod]
    simp only [decide_eq_true_eq]
    omega
  rw [h8, Nat.and_two_pow, ht]
  rfl

/-- Setting the continuation bit on a 7-bit value adds 128. -/
theorem or_cont_eq_add (c : Nat) (h : c < 128) : c ||| CONTINUE_BIT = c + 128 := by
  have h1 := Nat.mul_add_lt_is_or (i := 7) h 1
  rw [Nat.lor_comm, Nat.mul_one] at h1
  have h8 : CONTINUE_BIT = 2 ^ 7 := rfl
  have h7 : (2 : Nat) ^ 7 = 128 := by norm_num
  rw [h8]
  omega

/-- Disjoint-bit `or` is addition: a value below `2^shift` or-ed with a
multiple of `2^shift`. -/
theorem lor_eq_add_of_lt (acc d shift : Nat) (h : acc < 2 ^ shift) :
    acc ||| d * 2 ^ shift = acc + d * 2 ^ shift := by
  have h1 := Nat.mul_add_lt_is_or (i := shift) h d
  rw [Nat.lor_comm] at h1
  rw [Nat.mul_comm d (2 ^ shift)]
  omega

/-- One-step unfolding of the `write_varint` loop. -/
theorem write_varint_fuel_succ (fuel p : Nat) :
    write_varint_fuel (fuel + 1) p =
      (if asr7 p == 0 then some [(p % 256) &&& SEGMENT_BITS]
       else
         match write_varint_fuel fuel (asr7 p) with
         | some rest => some (((p % 256) &&& SEGMENT_BITS ||| CONTINUE_BIT) :: rest)
         | none => none) := rfl

/-- One-step unfolding of the `read_varint` loop. -/
theorem read_varint_go_cons (b : Nat) (rest : List Nat) (result shift : Nat) :
    read_varint_go (b :: rest) result shift =
      (if b &&& CONTINUE_BIT == 0 then
        (.ok (result ||| (((b &&& SEGMENT_BITS) <<< shift) % U32)), rest)
       else if shift + 7 ≥ 32 then (.error (.VarInt "varint too long"), rest)
       else read_varint_go rest (result ||| (((b &&& SEGMENT_BITS) <<< shift) % U32))
         (shift + 7)) := rfl

/-- On a nonnegative pattern the arithmetic shift is division by 128. -/
theorem asr7_of_lt (p : Nat) (h : p < 2 ^ 31) : asr7 p = p / 128 := by
  rw [asr7, if_pos h]

/-- The `write_varint` loop never stops on an input whose pattern has the
sign bit set: the arithmetic shift keeps the pattern in the negative range,
so the shifted value never reaches zero.  This is the nontermination of
`PacketReader::write_varint` on negative values, fuel by fuel. -/
theorem write_varint_fuel_neg (fuel p : Nat) (h1 : 2 ^ 31 ≤ p) (h2 : p < U32) :
    write_varint_fuel fuel p = none := by
  induction fuel generalizing p with
  | zero => rfl
  | succ fuel ih =>
    have e25 : (2 : Nat) ^ 25 = 33554432 := by norm_num
    have e31 : (2 : Nat) ^ 31 = 2147483648 := by norm_num
    have eU : U32 = 4294967296 := rfl
    have hdiv : p / 128 < 2 ^ 25 := by
      rw [Nat.div_lt_iff_lt_mul (by norm_num)]
      omega
    have hp' : asr7 p = p / 128 + (U32 - 2 ^ 25) := by
      rw [asr7, if_neg (by omega)]
    have hne : ¬ asr7 p = 0 := by omega
    have hge : 2 ^ 31 ≤ asr7 p := by omega
    have hlt : asr7 p < U32 := by omega
    rw [write_varint_fuel_succ, if_neg (by simpa using hne), ih (asr7 p) hge hlt]

/-- The `write_varint` loop finishes within `fuel + 1` iterations on a
nonnegative pattern with at most `fuel + 1` base-128 digits. -/
theorem write_varint_fuel_some (fuel : Nat) :
    ∀ p, p < 2 ^ 31 → p < 128 ^ (fuel + 1) →
    ∃ l, write_varint_fuel (fuel + 1) p = some l := by
  induction fuel with
  | zero =>
    intro p h31 h1
    have h0 : asr7 p = 0 := by
      rw [asr7_of_lt p h31]
      have h128 : (128 : Nat) ^ (0 + 1) = 128 := by norm_num
      omega
    refine ⟨[(p % 256) &&& SEGMENT_BITS], ?_⟩
    rw [write_varint_fuel_succ, if_pos (by simpa using h0)]
  | succ fuel ih =>
    intro p h31 hf
    by_cases h0 : asr7 p = 0
    · exact ⟨[(p % 256) &&& SEGMENT_BITS],
        by rw [write_varint_fuel_succ, if_pos (by simpa using h0)]⟩
    · have hdivlt : p / 128 < 2 ^ 31 := Nat.lt_of_le_of_lt (Nat.div_le_self p 128) h31
      have hdivf : p / 128 < 128 ^ (fuel + 1) := by
        rw [Nat.div_lt_iff_lt_mul (by norm_num)]
        calc p < 128 ^ (fuel + 1 + 1) := hf
          _ = 128 ^ (fuel + 1) * 128 := by ring
      obtain ⟨l, hl⟩ := ih (p / 128) hdivlt hdivf
      refine ⟨((p % 256) &&& SEGMENT_BITS ||| CONTINUE_BIT) :: l, ?_⟩
      rw [write_varint_fuel_succ, if_neg (by simpa using h0), asr7_of_lt p h31, hl]

/-- The totalizing wrapper agrees with the loop on every nonnegative
pattern. -/
theorem write_varint_fuel_five (p : Nat) (h : p < 2 ^ 31) :
    write_varint_fuel 5 p = some (write_varint p) := by
  obtain ⟨l, hl⟩ := write_varint_fuel_some 4 p h
    (by norm_num at h ⊢; omega)
  rw [write_varint, hl, Option.getD_some]

/-- Key round-trip lemma, following the two loops byte by byte: reading a
minimal encoding of `p` produced by the write loop, starting from any
accumulator that fits below the current shift, adds `p` at that shift and
stops exactly at the end of the encoding. -/
theorem read_write_go (fuel : Nat) :
    ∀ p l, p < 2 ^ 31 → write_varint_fuel fuel p = some l →
    ∀ rest acc shift, acc < 2 ^ shift → p * 2 ^ shift < U32 →
    read_varint_go (l ++ rest) acc shift = (.ok (acc + p * 2 ^ shift), rest) := by
  induction fuel with
  | zero => intro p l _ hw; exact absurd hw (by simp [write_varint_fuel])
  | succ fuel ih =>
    intro p l h31 hw rest acc shift hacc hlt
    rw [write_varint_fuel_succ, asr7_of_lt p h31] at hw
    have hb : (p % 256) &&& SEGMENT_BITS = p % 128 := byte_low p
    by_cases h0 : p / 128 = 0
    · have hp128 : p < 128 := by omega
      have hl : l = [p] := by
        rw [if_pos (by simpa using h0), hb, Nat.mod_eq_of_lt hp128] at hw
        exact (Option.some_inj.mp hw).symm
      subst hl
      have hmask : p &&& SEGMENT_BITS = p := by
        have hbl := byte_low p
        rw [Nat.mod_eq_of_lt (by omega : p < 256)] at hbl
        rw [hbl, Nat.mod_eq_of_lt hp128]
      have hcont : p &&& CONTINUE_BIT = 0 := no_cont_of_lt p hp128
      rw [List.singleton_append, read_varint_go_cons, hmask, hcont]
      rw [if_pos (by rfl), Nat.shiftLeft_eq,
        Nat.mod_eq_of_lt (by omega : p * 2 ^ shift < U32),
        lor_eq_add_of_lt acc p shift hacc]
    · have hge : 128 ≤ p := by
        by_contra hc
        exact h0 (Nat.div_eq_of_lt (by omega))
      rw [if_neg (by simpa using h0)] at hw
      cases htail : write_varint_fuel fuel (p / 128) with
      | none => rw [htail] at hw; exact absurd hw (by simp)
      | some tail =>
        rw [htail] at hw
        have hl : l = (p % 128 ||| CONTINUE_BIT) :: tail := by
          rw [hb] at hw
          exact (Option.some_inj.mp hw).symm
        subst hl
        have hplow : p % 128 < 128 := Nat.mod_lt p (by norm_num)
        have hbyte : p % 128 ||| CONTINUE_BIT = p % 128 + 128 :=
          or_cont_eq_add (p % 128) hplow
        have hmask : (p % 128 + 128) &&& SEGMENT_BITS = p % 128 := by
          have hbl := byte_low (p % 128 + 128)
          rw [Nat.mod_eq_of_lt (by omega : p % 128 + 128 < 256)] at hbl
          rw [hbl]
          omega
        have hcont : (p % 128 + 128) &&& CONTINUE_BIT = 128 :=
          cont_of_ge (p % 128 + 128) (by omega) (by omega)
        have hpow : (128 : Nat) * 2 ^ shift = 2 ^ (shift + 7) := by
          rw [pow_add]; ring
        have hshift : ¬ shift + 7 ≥ 32 := by
          intro hge32
          have hx1 : 2 ^ (shift + 7) ≤ p * 2 ^ shift := by
            rw [← hpow]
            exact Nat.mul_le_mul_right _ hge
          have hx2 : (2 : Nat) ^ 32 ≤ 2 ^ (shift + 7) :=
            Nat.pow_le_pow_right (by norm_num) hge32
          have hU : (U32 : Nat) = 2 ^ 32 := by norm_num [U32]
          omega
        have hmodlt : p % 128 * 2 ^ shift < U32 :=
          Nat.lt_of_le_of_lt (Nat.mul_le_mul_right _ (Nat.mod_le p 128)) hlt
        have hkey : p / 128 * 2 ^ (shift + 7) = p / 128 * 128 * 2 ^ shift := by
          rw [← hpow]; ring
        have hdiv31 : p / 128 < 2 ^ 31 :=
          Nat.lt_of_le_of_lt (Nat.div_le_self p 128) h31
        have hacc2 : acc + p % 128 * 2 ^ shift < 2 ^ (shift + 7) := by
          have hm : p % 128 * 2 ^ shift ≤ 127 * 2 ^ shift :=
            Nat.mul_le_mul_right _ (by omega)
          omega
        have hlt2 : p / 128 * 2 ^ (shift + 7) < U32 := by
          rw [hkey]
          exact Nat.lt_of_le_of_lt
            (Nat.mul_le_mul_right _ (Nat.div_mul_le_self p 128)) hlt
        have hval : acc + p % 128 * 2 ^ shift + p / 128 * 2 ^ (shift + 7)
            = acc + p * 2 ^ shift := by
          rw [hkey]
          have hdm : p % 128 + p / 128 * 128 = p := Nat.mod_add_div' p 128
          calc acc + p % 128 * 2 ^ shift + p / 128 * 128 * 2 ^ shift
              = acc + (p % 128 + p / 128 * 128) * 2 ^ shift := by ring
            _ = acc + p * 2 ^ shift := by rw [hdm]
        rw [hbyte, List.cons_append, read_varint_go_cons, hmask, hcont]
        rw [show ((128 : Nat) == 0) = false from rfl]
        simp only [Bool.false_eq_true, if_false]
        rw [if_neg hshift, Nat.shiftLeft_eq, Nat.mod_eq_of_lt hmodlt,
          lor_eq_add_of_lt acc (p % 128) shift hacc,
          ih (p / 128) tail hdiv31 htail rest _ (shift + 7) hacc2 hlt2, hval]

/-- Round trip of the VarInt codec on any nonnegative `i32`, with any bytes
following the encoding: decoding consumes exactly the encoding and returns
the value. -/
theorem read_write_varint (p : Nat) (h : p < 2 ^ 31) (rest : List Nat) :
    read_varint (write_varint p ++ rest) = (.ok p, rest) := by
  have h5 := write_varint_fuel_five p h
  have := read_write_go 5 p (write_varint p) h h5 rest 0 0 (by norm_num)
    (by norm_num [U32] at h ⊢; omega)
  simpa [read_varint] using this

/-- The write loop emits at most one byte per unit of fuel. -/
theorem write_varint_fuel_length (fuel : Nat) :
    ∀ p l, write_varint_fuel fuel p = some l → l.length ≤ fuel := by
  induction fuel with
  | zero => intro p l hw; exact absurd hw (by simp [write_varint_fuel])
  | succ fuel ih =>
    intro p l hw
    rw [write_varint_fuel_succ] at hw
    by_cases h0 : asr7 p = 0
    · rw [if_pos (by simpa using h0)] at hw
      rw [← Option.some_inj.mp hw]
      simp
    · rw [if_neg (by simpa using h0)] at hw
      cases htail : write_varint_fuel fuel (asr7 p) with
      | none => rw [htail] at hw; exact absurd hw (by simp)
      | some tail =>
        rw [htail] at hw
        rw [← Option.some_inj.mp hw]
        have := ih (asr7 p) tail htail
        simpa using this

/-- The write loop never emits an empty byte list. -/
theorem write_varint_fuel_ne_nil (fuel : Nat) :
    ∀ p l, write_varint_fuel fuel p = some l → l ≠ [] := by
  induction fuel with
  | zero => intro p l hw; exact absurd hw (by simp [write_varint_fuel])
  | succ fuel _ih =>
    intro p l hw
    rw [write_varint_fuel_succ] at hw
    by_cases h0 : asr7 p = 0
    · rw [if_pos (by simpa using h0)] at hw
      rw [← Option.some_inj.mp hw]
      simp
    · rw [if_neg (by simpa using h0)] at hw
      cases htail : write_varint_fuel fuel (asr7 p) with
      | none => rw [htail] at hw; exact absurd hw (by simp)
      | some tail =>
        rw [htail] at hw
        rw [← Option.some_inj.mp hw]
        simp

/-- Every byte of a loop-produced encoding except the last carries the
continuation bit (and is a byte). -/
theorem write_varint_fuel_dropLast (fuel : Nat) :
    ∀ p l, write_varint_fuel fuel p = some l →
    ∀ b ∈ l.dropLast, 128 ≤ b ∧ b < 256 := by
  induction fuel with
  | zero => intro p l hw; exact absurd hw (by simp [write_varint_fuel])
  | succ fuel ih =>
    intro p l hw
    rw [write_varint_fuel_succ] at hw
    by_cases h0 : asr7 p = 0
    · rw [if_pos (by simpa using h0)] at hw
      rw [← Option.some_inj.mp hw]
      simp
    · rw [if_neg (by simpa using h0)] at hw
      cases htail : write_varint_fuel fuel (asr7 p) with
      | none => rw [htail] at hw; exact absurd hw (by simp)
      | some tail =>
        rw [htail] at hw
        rw [← Option.some_inj.mp hw]
        have htne : tail ≠ [] := write_varint_fuel_ne_nil fuel (asr7 p) tail htail
        cases tail with
        | nil => exact absurd rfl htne
        | cons t ts =>
          intro b hb
          rw [List.dropLast_cons₂] at hb
          rcases List.mem_cons.mp hb with hbeq | hbtail
          · subst hbeq
            have hble : (p % 256) &&& SEGMENT_BITS < 128 := by
              rw [byte_low p]
              exact Nat.mod_lt p (by norm_num)
            have := or_cont_eq_add ((p % 256) &&& SEGMENT_BITS) hble
            omega
          · exact ih (asr7 p) (t :: ts) htail b hbtail

/-- Reading a buffer made only of continuation bytes runs off its end and
reports the buffer-underflow VarInt error, provided the shifts stay below
the 32-bit cutoff (which holds up to four such bytes). -/
theorem read_all_cont (l : List Nat) :
    ∀ acc shift, (∀ b ∈ l, 128 ≤ b ∧ b < 256) → shift + 7 * l.length ≤ 28 →
    read_varint_go l acc shift = (.error (.VarInt "buffer underflow"), []) := by
  induction l with
  | nil => intro acc shift _ _; rfl
  | cons b rest ih =>
    intro acc shift hb hshift
    have hbb := hb b (List.mem_cons_self b rest)
    have hcont : b &&& CONTINUE_BIT = 128 := cont_of_ge b hbb.1 hbb.2
    rw [read_varint_go_cons, hcont]
    rw [show ((128 : Nat) == 0) = false from rfl]
    simp only [Bool.false_eq_true, if_false]
    have hlen : (rest.length : Nat) + 1 = (b :: rest).length := by simp
    rw [if_neg (by simp at hshift ⊢; omega)]
    exact ih _ (shift + 7) (fun x hx => hb x (List.mem_cons_of_mem b hx))
      (by simp at hshift ⊢; omega)

/-- Dropping the final byte of a minimal encoding leaves only continuation
bytes, so decoding reports the Incomplete-style buffer-underflow error. -/
theorem read_varint_dropLast (p : Nat) (h : p < 2 ^ 31) :
    read_varint ((write_varint p).dropLast) = (.error (.VarInt "buffer underflow"), []) := by
  have h5 := write_varint_fuel_five p h
  have hlen : (write_varint p).length ≤ 5 := write_varint_fuel_length 5 p _ h5
  have hbytes := write_varint_fuel_dropLast 5 p _ h5
  have hdl : (write_varint p).dropLast.length ≤ 4 := by
    rw [List.length_dropLast]
    omega
  rw [read_varint]
  exact read_all_cont _ 0 0 hbytes (by omega)

/-- If `handle_packet` answers "keep going" without touching the buffer,
the `while !buffer.is_empty()` loop of `handle_connection` re-enters with
the identical state and never finishes, whatever fuel it is given. -/
theorem packet_loop_spin (fuel : Nat) (st : ConnectionState) (rd : RegistryData)
    (buffer : List Nat) (hne : buffer ≠ [])
    (hstep : handle_packet st rd buffer = (.ok (st, [], true), buffer)) :
    packet_loop fuel st rd buffer = none := by
  induction fuel with
  | zero => rfl
  | succ fuel ih =>
    rw [packet_loop]
    rw [if_neg (by simpa using hne), hstep]
    exact ih

/-- The colon split never returns an empty part list. -/
theorem splitColon_ne_nil (s : List Nat) : splitColon s ≠ [] := by
  match s with
  | [] => simp [splitColon]
  | b :: rest =>
    rw [splitColon]
    by_cases hb : b = 58
    · simp [hb]
    · rw [if_neg (by simpa using hb)]
      cases hs : splitColon rest with
      | nil => exact absurd hs (splitColon_ne_nil rest)
      | cons part parts => simp

/-- The colon split returns one part more than the number of colons. -/
theorem splitColon_length (s : List Nat) :
    (splitColon s).length = s.count 58 + 1 := by
  induction s with
  | nil => rfl
  | cons b rest ih =>
    rw [splitColon]
    by_cases hb : b = 58
    · subst hb
      simp [List.count_cons, ih]
    · rw [if_neg (by simpa using hb)]
      cases hs : splitColon rest with
      | nil => exact absurd hs (splitColon_ne_nil rest)
      | cons part parts =>
        rw [hs] at ih
        simp only [List.length_cons] at ih ⊢
        rw [List.count_cons]
        simp [hb, ih]

/-- A one-part colon split is the whole string. -/
theorem splitColon_singleton (s x : List Nat) (h : splitColon s = [x]) : s = x := by
  match s with
  | [] => rw [splitColon] at h; simpa using h.symm
  | b :: rest =>
    rw [splitColon] at h
    by_cases hb : b = 58
    · rw [if_pos (by simpa using hb)] at h
      injection h with h1 h2
      exact absurd h2 (splitColon_ne_nil rest)
    · rw [if_neg (by simpa using hb)] at h
      cases hs : splitColon rest with
      | nil => exact absurd hs (splitColon_ne_nil rest)
      | cons part parts =>
        rw [hs] at h
        have h' : (b :: part) :: parts = [x] := h
        injection h' with h1 h2
        subst h2
        have hr : rest = part := splitColon_singleton rest part hs
        rw [hr, h1]

/-- A two-part colon split decomposes the string around a single colon. -/
theorem splitColon_pair (s a b : List Nat) (h : splitColon s = [a, b]) :
    s = a ++ 58 :: b := by
  match s with
  | [] => rw [splitColon] at h; simp at h
  | c :: rest =>
    rw [splitColon] at h
    by_cases hc : c = 58
    · rw [if_pos (by simpa using hc)] at h
      injection h with h1 h2
      have hr : rest = b := splitColon_singleton rest b h2
      rw [hc, hr, ← h1]
      rfl
    · rw [if_neg (by simpa using hc)] at h
      cases hs : splitColon rest with
      | nil => exact absurd hs (splitColon_ne_nil rest)
      | cons part parts =>
        rw [hs] at h
        have h' : (c :: part) :: parts = [a, b] := h
        injection h' with h1 h2
        subst h2
        have hrec : rest = part ++ 58 :: b := splitColon_pair rest part b hs
        rw [← h1, hrec]
        rfl

/-- Whenever `read_string` fails, the buffer it leaves behind is exactly the
buffer after the length-prefix VarInt read: the prefix bytes stay consumed,
the payload bytes stay unconsumed. -/
theorem read_string_err_buffer (buf : List Nat) (e : MinecraftError) (buf' : List Nat)
    (h : read_string buf = (.error e, buf')) : buf' = (read_varint buf).2 := by
  rw [read_string, pbind] at h
  cases hrv : read_varint buf with
  | mk r rest =>
    rw [hrv] at h
    simp only
    cases r with
    | error e0 => simp at h; exact h.2.symm
    | ok len =>
      simp only at h
      by_cases h1 : 2 ^ 31 ≤ len
      · rw [if_pos h1] at h
        simp at h
        exact h.2.symm
      · rw [if_neg h1] at h
        by_cases h2 : rest.length < len
        · rw [if_pos h2] at h
          simp at h
          exact h.2.symm
        · rw [if_neg h2] at h
          by_cases h3 : utf8Valid (rest.take len) = true
          · rw [if_pos h3] at h
            simp at h
          · rw [if_neg h3] at h
            simp at h
            exact h.2.symm

/-- C5: for every value v in 0..=i32::MAX (the nonnegative `i32` patterns,
boundary values included), the `write_varint` loop terminates and decoding
its output returns v having consumed exactly the encoding — the remaining
buffer is empty, so the byte count consumed equals `(write_varint v).length`. -/
theorem c5_varint_roundtrip (v : Nat) (h : v < 2 ^ 31) :
    write_varint_fuel 5 v = some (write_varint v) ∧
    read_varint (write_varint v) = (.ok v, []) := by
  refine ⟨write_varint_fuel_five v h, ?_⟩
  have hr := read_write_varint v h []
  simpa using hr

/-- Witness for C5 at the boundary value i32::MAX. -/
theorem c5_varint_roundtrip_witness :
    write_varint_fuel 5 2147483647 = some (write_varint 2147483647) ∧
    read_varint (write_varint 2147483647) = (.ok 2147483647, []) :=
  c5_varint_roundtrip 2147483647 (by norm_num)

/-- C6: at the failing input v = -1 (pattern 0xFFFFFFFF), `get_varint_size`
answers 5 bytes but the `write_varint` loop never terminates — it produces no
byte sequence at all, for any number of iterations — so encoded_size does not
match what encode produces on every 32-bit signed value. -/
theorem c6_negative_encode_diverges :
    get_varint_size 4294967295 = 5 ∧
    ∀ fuel, write_varint_fuel fuel 4294967295 = none :=
  ⟨rfl, fun fuel => write_varint_fuel_neg fuel 4294967295 (by norm_num)
    (by norm_num [U32])⟩

/-- Witness for C6, the divergence observed at fuel 10. -/
theorem c6_negative_encode_diverges_witness :
    get_varint_size 4294967295 = 5 ∧ write_varint_fuel 10 4294967295 = none :=
  ⟨c6_negative_encode_diverges.1, c6_negative_encode_diverges.2 10⟩

/-- C7: a 6-byte all-continuation sequence fails with the Oversized error
("varint too long", after consuming five bytes), a valid 5-byte encoding
still succeeds, and dropping the final byte of any nonnegative value's
encoding fails with the Incomplete error ("buffer underflow"). -/
theorem c7_varint_boundaries (v : Nat) (h : v < 2 ^ 31) :
    read_varint [0x80, 0x80, 0x80, 0x80, 0x80, 0x80] =
      (.error (.VarInt "varint too long"), [0x80]) ∧
    read_varint [0xFF, 0xFF, 0xFF, 0xFF, 0x07] = (.ok 2147483647, []) ∧
    read_varint ((write_varint v).dropLast) =
      (.error (.VarInt "buffer underflow"), []) :=
  ⟨rfl, rfl, read_varint_dropLast v h⟩

/-- Witness for C7 at v = 300 (a two-byte encoding). -/
theorem c7_varint_boundaries_witness :
    read_varint ((write_varint 300).dropLast) =
      (.error (.VarInt "buffer underflow"), []) :=
  (c7_varint_boundaries 300 (by norm_num)).2.2

/-- C10: `read_varint` accepts the non-minimal encoding [0x80, 0x00] of 0,
consuming two bytes where `get_varint_size 0` is one; consequently
`handle_packet`, which recomputes the prefix size with `get_varint_size`,
mis-slices a frame with a non-minimally encoded length: on
[0x81, 0x00, 0x42] (length 1 encoded in two bytes, content 0x42) it reads
the second prefix byte 0x00 as the packet ID — in the Status phase it emits
a status response and leaves 0x42 in the buffer — while on the minimally
encoded equivalent [0x01, 0x42] it correctly sees packet ID 0x42, an
unknown ID that is ignored. -/
theorem c10_nonminimal_prefix :
    read_varint [0x80, 0x00] = (.ok 0, []) ∧
    get_varint_size 0 = 1 ∧
    handle_packet .Status rd0 [0x81, 0x00, 0x42] =
      (.ok (.Status, [status_response_frame], true), [0x42]) ∧
    handle_packet .Status rd0 [0x01, 0x42] = (.ok (.Status, [], true), []) :=
  ⟨rfl, rfl, rfl, rfl⟩

/-- C1: at the failing input — a single read delivering [0x05], a length
prefix declaring a 5-byte frame that has not arrived — `handle_packet`
answers Ok(true) without consuming anything, and therefore the
`while !buffer.is_empty()` loop of `handle_connection` never terminates:
it re-invokes `handle_packet` on the identical buffer forever, for every
iteration bound, instead of returning to wait for more socket data. -/
theorem c1_incomplete_frame_spins (fuel : Nat) :
    handle_packet .Handshake rd0 [0x05] = (.ok (.Handshake, [], true), [0x05]) ∧
    packet_loop fuel .Handshake rd0 [0x05] = none := by
  have hstep : handle_packet .Handshake rd0 [0x05]
      = (.ok (.Handshake, [], true), [0x05]) := rfl
  exact ⟨hstep, packet_loop_spin fuel _ _ _ (by simp) hstep⟩

/-- Witness for C1 at iteration bound 5. -/
theorem c1_incomplete_frame_spins_witness :
    handle_packet .Handshake rd0 [0x05] = (.ok (.Handshake, [], true), [0x05]) ∧
    packet_loop 5 .Handshake rd0 [0x05] = none :=
  c1_incomplete_frame_spins 5

/-- C2: at the failing input [0x80,0x80,0x80,0x80,0x80] — a malformed,
oversized VarInt as frame length — `read_varint` reports the Oversized error
("varint too long"), yet `handle_packet` matches it with the catch-all
`MinecraftError::VarInt(_)` arm and answers Ok(true), "wait for more data",
exactly as for an incomplete prefix; the connection is not terminated and the
processing loop spins forever. -/
theorem c2_oversized_not_fatal (fuel : Nat) :
    read_varint [0x80, 0x80, 0x80, 0x80, 0x80] =
      (.error (.VarInt "varint too long"), []) ∧
    handle_packet .Handshake rd0 [0x80, 0x80, 0x80, 0x80, 0x80] =
      (.ok (.Handshake, [], true), [0x80, 0x80, 0x80, 0x80, 0x80]) ∧
    packet_loop fuel .Handshake rd0 [0x80, 0x80, 0x80, 0x80, 0x80] = none := by
  have hstep : handle_packet .Handshake rd0 [0x80, 0x80, 0x80, 0x80, 0x80]
      = (.ok (.Handshake, [], true), [0x80, 0x80, 0x80, 0x80, 0x80]) := rfl
  exact ⟨rfl, hstep, packet_loop_spin fuel _ _ _ (by simp) hstep⟩

/-- Witness for C2 at iteration bound 5. -/
theorem c2_oversized_not_fatal_witness :
    read_varint [0x80, 0x80, 0x80, 0x80, 0x80] =
      (.error (.VarInt "varint too long"), []) ∧
    handle_packet .Handshake rd0 [0x80, 0x80, 0x80, 0x80, 0x80] =
      (.ok (.Handshake, [], true), [0x80, 0x80, 0x80, 0x80, 0x80]) ∧
    packet_loop 5 .Handshake rd0 [0x80, 0x80, 0x80, 0x80, 0x80] = none :=
  c2_oversized_not_fatal 5

/-- C4 counterexample: on the input [5, 65] — a length prefix declaring five
bytes with only one present — `read_string` fails with the buffer-underrun
error but leaves the slice advanced to [65], not the original [5, 65]: it
does consume the length-prefix byte on failure, so "consumes nothing" is
false. -/
theorem c4_counterexample :
    read_string [5, 65] =
      (.error (.BufferUnderrun "String length exceeds buffer size"), [65]) ∧
    [65] ≠ [5, 65] :=
  ⟨rfl, by decide⟩

/-- C4 as amended: when `read_string` fails, the buffer it leaves is exactly
the buffer left by the length-prefix VarInt read — the prefix bytes stay
consumed (all of the buffer when the prefix itself is incomplete) and the
payload bytes stay unconsumed; in particular a length prefix declaring more
bytes than remain fails with the buffer-underrun error having consumed
exactly the prefix. -/
theorem c4_read_string_failure (buf : List Nat) :
    (∀ e buf', read_string buf = (.error e, buf') → buf' = (read_varint buf).2) ∧
    (∀ len rest, read_varint buf = (.ok len, rest) → len < 2 ^ 31 →
      rest.length < len →
      read_string buf =
        (.error (.BufferUnderrun "String length exceeds buffer size"), rest)) := by
  constructor
  · exact fun e buf' h => read_string_err_buffer buf e buf' h
  · intro len rest hrv hneg hlen
    simp only [read_string, pbind]
    rw [hrv]
    simp only
    rw [if_neg (by omega : ¬ 2 ^ 31 ≤ len), if_pos hlen]

/-- Witness for C4 at the buffer [5, 65]. -/
theorem c4_read_string_failure_witness :
    [65] = (read_varint [5, 65]).2 ∧
    read_string [5, 65] =
      (.error (.BufferUnderrun "String length exceeds buffer size"), [65]) :=
  ⟨(c4_read_string_failure [5, 65]).1
      (.BufferUnderrun "String length exceeds buffer size") [65] rfl,
    (c4_read_string_failure [5, 65]).2 5 [65] rfl (by norm_num) (by norm_num)⟩

/-- C9 counterexample: the buffer [5, 97, 58, 98, 58, 99] holds the string
"a:b:c", whose separator is present, yet `read_identifier` fails with the
protocol error: `split(':')` yields three parts and the code demands exactly
two, so the path cannot contain a further colon and failure is not limited
to an absent separator. -/
theorem c9_counterexample :
    read_identifier [5, 97, 58, 98, 58, 99] =
      (.error (.Protocol "Invalid identifier format"), []) ∧
    read_string [5, 97, 58, 98, 58, 99] = (.ok [97, 58, 98, 58, 99], []) ∧
    58 ∈ [97, 58, 98, 58, 99] :=
  ⟨rfl, rfl, by decide⟩

/-- C9 as amended: `read_identifier` splits the decoded string at every
colon and succeeds exactly when the string contains exactly one colon, in
which case it returns the parts before and after it; it fails with the
protocol error both when the separator is absent and when it occurs more
than once. -/
theorem c9_read_identifier (buf s rest : List Nat)
    (h : read_string buf = (.ok s, rest)) :
    (s.count 58 = 1 → ∃ ns path, splitColon s = [ns, path] ∧
        read_identifier buf = (.ok (ns, path), rest) ∧ s = ns ++ 58 :: path) ∧
    (s.count 58 ≠ 1 →
        read_identifier buf = (.error (.Protocol "Invalid identifier format"), rest)) := by
  have hlen := splitColon_length s
  constructor
  · intro h1
    rw [h1] at hlen
    match hsp : splitColon s with
    | [] => exact absurd hsp (splitColon_ne_nil s)
    | [a] => rw [hsp] at hlen; simp at hlen
    | a :: b :: c :: ts => rw [hsp] at hlen; simp at hlen
    | [a, b] =>
      refine ⟨a, b, rfl, ?_, splitColon_pair s a b hsp⟩
      simp only [read_identifier, pbind]
      rw [h]
      simp only [hsp]
      rfl
  · intro h1
    simp only [read_identifier, pbind]
    rw [h]
    simp only
    rw [if_pos (by rw [splitColon_length s]; simpa using (by omega : ¬ s.count 58 + 1 = 2))]

/-- Witness for C9 at the buffer [3, 97, 58, 98] holding "a:b". -/
theorem c9_read_identifier_witness :
    read_identifier [3, 97, 58, 98] = (.ok ([97], [98]), []) := by
  obtain ⟨ns, path, hsp, hri, _hdecomp⟩ :=
    (c9_read_identifier [3, 97, 58, 98] [97, 58, 98] [] rfl).1 (by decide)
  have hconc : splitColon [97, 58, 98] = [[97], [98]] := rfl
  have hpair : ([[97], [98]] : List (List Nat)) = [ns, path] := hconc.symm.trans hsp
  injection hpair with h1 h2
  injection h2 with h2 _h3
  rw [← h1, ← h2] at hri
  exact hri

/-- C3 counterexample: handling a known-packs packet (ID 0x07, here with pack
count 0) in the Configuration phase emits the eleven registry frames (packet
ID 0x07 each) and the finish-configuration frame (packet ID 0x03) — and no
update-tags frame: the aggregated tag frame produced by
`RegistryManager::write_update_tags` carries packet ID 0x0D and appears
nowhere in the output, because that function is never called. -/
theorem c3_counterexample :
    dispatch .Configuration rd0 7 [0] =
      (.ok (.Configuration, write_registry_data rd0 ++ [finish_configuration_frame],
        true), []) ∧
    (write_registry_data rd0 ++ [finish_configuration_frame]).map frameIdOf =
      [some 7, some 7, some 7, some 7, some 7, some 7, some 7, some 7, some 7,
       some 7, some 7, some 3] ∧
    frameIdOf (write_update_tags_frame td0) = some 13 ∧
    some 13 ∉ (write_registry_data rd0 ++ [finish_configuration_frame]).map frameIdOf ∧
    write_update_tags_frame td0 ∉ write_registry_data rd0 ++ [finish_configuration_frame] :=
  ⟨rfl, rfl, rfl, by decide, by decide⟩

/-- C3 as amended: whenever the known-packs payload parses (a count and that
many string triples), the Configuration-phase handler of packet ID 0x07
responds with exactly the per-registry-type registry frames followed by the
server-initiated finish-configuration frame [1, 3]; the aggregated tag frame
is not part of the response. -/
theorem c3_known_packs_response (rd : RegistryData) (data : List Nat)
    (r : Nat × List (List Nat × List Nat × List Nat)) (buf' : List Nat)
    (h : parse_known_packs data = (.ok r, buf')) :
    dispatch .Configuration rd 7 data =
      (.ok (.Configuration, write_registry_data rd ++ [finish_configuration_frame],
        true), buf') ∧
    (write_registry_data rd).length = 11 ∧
    finish_configuration_frame = [1, 3] := by
  refine ⟨?_, rfl, rfl⟩
  have hd : dispatch .Configuration rd 7 data
      = (pbind parse_known_packs fun _packs =>
          ppure (ConnectionState.Configuration,
            write_registry_data rd ++ [finish_configuration_frame], true)) data := rfl
  rw [hd]
  simp only [pbind]
  rw [h]
  rfl

/-- Witness for C3 with the empty pack list and the concrete catalog. -/
theorem c3_known_packs_response_witness :
    dispatch .Configuration rd0 7 [0] =
      (.ok (.Configuration, write_registry_data rd0 ++ [finish_configuration_frame],
        true), []) ∧
    (write_registry_data rd0).length = 11 :=
  ⟨(c3_known_packs_response rd0 [0] (0, []) [] rfl).1,
    (c3_known_packs_response rd0 [0] (0, []) [] rfl).2.1⟩

set_option maxRecDepth 10000 in
/-- C8: encoding registry type "dimension_type" with the four entries
produces exactly the byte sequence of the spec: length prefix 0x74, packet
ID 0x07, the "minecraft:dimension_type" identifier, entry count 4, then per
entry its "minecraft:"-prefixed identifier and a has-extra-data byte 0. -/
theorem c8_registry_packet_bytes :
    write_registry_packet (ascii "dimension_type")
      [ascii "overworld", ascii "overworld_caves", ascii "the_nether", ascii "the_end"] =
    [0x74, 0x07, 0x18] ++ ascii "minecraft:dimension_type"
      ++ [0x04, 0x13] ++ ascii "minecraft:overworld" ++ [0x00]
      ++ [0x19] ++ ascii "minecraft:overworld_caves" ++ [0x00]
      ++ [0x14] ++ ascii "minecraft:the_nether" ++ [0x00]
      ++ [0x11] ++ ascii "minecraft:the_end" ++ [0x00] := rfl
